import Mathlib

/-!
Verification development for the pool-payouts pending-payment ledger
(`payments.py`): a mapping from recipient address to accumulated pending
amount, with a `register_payment` operation that credits a recipient and a
`process_payments` operation that drains the mapping, issuing one transfer
per entry.

Modelling choices (shallow embedding of the Python source):

* The Python dict `self.payments` preserves insertion order and
  `dict.popitem()` removes the most recently inserted entry (LIFO).  We
  model the dict as a `List (String × Int)` stored in REVERSE insertion
  order: registering a new key conses it to the front, and `popitem` takes
  the head.  Updating the value of an existing key keeps its position,
  exactly as in Python.
* Python integers are unbounded, so amounts are `Int`.
* The RPC client is a record of functions.  A Python call that raises an
  exception is modelled as returning `Except.error`; `process_payments`
  propagates such an error in the `error` field of its result, together
  with the transfer calls attempted so far (`attempts`) and the final state
  of the mapping (`remaining`).
* The asyncio lock serialises all operations; the claims under study are
  about the serialised behaviour, so the embedding is a sequential state
  transformer and the lock itself is not represented.
-/

/-- Error raised by a ledger-client transfer call (the `TransferError` of
the spec; in the source an exception raised by `send_basic_transaction` or
`send_stake_transaction`). -/
structure TransferError where
  message : String
deriving DecidableEq, Repr

/-- Errors observable from `process_payments`: the authorization failure it
raises itself (`InternalErrorException` in the source), or a propagated
transfer error. -/
inductive PayError where
  | unauthorized (message : String)
  | transfer (e : TransferError)
deriving DecidableEq, Repr

/-- Source constant `VALIDITY_START_WINDOW_OFFSET = "+0"`. -/
def VALIDITY_START_WINDOW_OFFSET : String := "+0"

/-- The ledger-client capability used by `process_payments`: the
account-unlock check and the two transfer instructions.  Argument order of
the send functions follows the source:
sender, recipient, amount, fee, validity window. -/
structure Client where
  is_account_unlocked : String → Bool
  send_stake_transaction : String → String → Int → Int → String → Except TransferError Unit
  send_basic_transaction : String → String → Int → Int → String → Except TransferError Unit

/-- The pending-payments mapping `self.payments`, in reverse insertion
order (head = most recently inserted = next to be popped by `popitem`). -/
abbrev Ledger := List (String × Int)

/-- Dict key lookup: the pending amount stored for `a`, `none` when the
dict has no entry for `a` (Python `self.payments[a]` and `a in
self.payments`). -/
def getPending : Ledger → String → Option Int
  | [], _ => none
  | (k, w) :: rest, a => if k = a then some w else getPending rest a

/-- In-place update of the entry for key `a` (Python
`self.payments[a] += amount`): the entry keeps its position in insertion
order.  Only one entry per key exists in a dict, so updating the first
occurrence is the dict update. -/
def updateAdd : Ledger → String → Int → Ledger
  | [], _, _ => []
  | (k, w) :: rest, a, v => if k = a then (k, w + v) :: rest else (k, w) :: updateAdd rest a v

/-- Embedding of `Payments.register_payment`:
if `address in self.payments` then `self.payments[address] += amount`
else `self.payments[address] = amount`.  Creating an entry makes it the
most recently inserted one, hence the cons at the head. -/
def register_payment (st : Ledger) (address : String) (amount : Int) : Ledger :=
  match getPending st address with
  | some _ => updateAdd st address amount
  | none => (address, amount) :: st

/-- The per-call send function chosen by `process_payments` from the
`use_stake_txns` flag: either `client.send_stake_transaction(sender,
recipient, amount, 0, VALIDITY_START_WINDOW_OFFSET)` or the basic variant.  -/
def sendOf (client : Client) (sender : String) (use_stake_txns : Bool) :
    String → Int → Except TransferError Unit :=
  fun recipient amount =>
    if use_stake_txns then
      client.send_stake_transaction sender recipient amount 0 VALIDITY_START_WINDOW_OFFSET
    else
      client.send_basic_transaction sender recipient amount 0 VALIDITY_START_WINDOW_OFFSET

/-- Embedding of the drain loop of `Payments.process_payments`:
`while len(self.payments) != 0: (recipient, amount) = self.payments.popitem(); await send(...)`.
Returns the transfer calls attempted in order, the entries still in the
mapping when the loop ends, and the first transfer error if one occurred
(a raised exception ends the loop at once, as in Python). -/
def drainLoop (send : String → Int → Except TransferError Unit) :
    Ledger → List (String × Int) × Ledger × Option TransferError
  | [] => ([], [], none)
  | (recipient, amount) :: rest =>
    match send recipient amount with
    | Except.ok _ =>
      match drainLoop send rest with
      | (att, rem, err) => ((recipient, amount) :: att, rem, err)
    | Except.error e => ([(recipient, amount)], rest, some e)

/-- Observable outcome of one `process_payments` call: the transfers
attempted (in pop order), the final pending mapping, and the exception
propagated to the caller, if any (`none` means it returned normally). -/
structure DrainResult where
  attempts : List (String × Int)
  remaining : Ledger
  error : Option PayError
deriving DecidableEq, Repr

/-- Embedding of `Payments.process_payments`: first the unlock check
(raising `InternalErrorException` if the sender account is locked, before
touching the mapping), then the drain loop under the lock. -/
def process_payments (client : Client) (sender : String) (use_stake_txns : Bool)
    (st : Ledger) : DrainResult :=
  if client.is_account_unlocked sender then
    let r := drainLoop (sendOf client sender use_stake_txns) st
    { attempts := r.1, remaining := r.2.1, error := r.2.2.map PayError.transfer }
  else
    { attempts := [], remaining := st,
      error := some (PayError.unauthorized
        ("Cannot send transaction because " ++ sender ++ " is locked")) }

/-- Registering a whole sequence of calls, each a (recipient, amount)
pair, in order (used to state the sum invariant). -/
def foldRegister (st : Ledger) (calls : List (String × Int)) : Ledger :=
  calls.foldl (fun s c => register_payment s c.1 c.2) st

/-- Total amount a sequence of calls registers for recipient `R`. -/
def sumFor (R : String) (calls : List (String × Int)) : Int :=
  ((calls.filter (fun c => c.1 == R)).map Prod.snd).sum

/-- A client whose sender account is unlocked and whose transfers all
succeed. -/
def okClient : Client :=
  { is_account_unlocked := fun _ => true
    send_stake_transaction := fun _ _ _ _ _ => Except.ok ()
    send_basic_transaction := fun _ _ _ _ _ => Except.ok ()
  }

/-- A client whose sender account is locked. -/
def lockedClient : Client :=
  { is_account_unlocked := fun _ => false
    send_stake_transaction := fun _ _ _ _ _ => Except.ok ()
    send_basic_transaction := fun _ _ _ _ _ => Except.ok ()
  }

/-- A client whose sender account is unlocked and whose transfers succeed
except those to the one recipient `bad`, which raise a transfer error. -/
def failOnClient (bad : String) : Client :=
  { is_account_unlocked := fun _ => true
    send_stake_transaction := fun _ recipient _ _ _ =>
      if recipient = bad then Except.error { message := "boom" } else Except.ok ()
    send_basic_transaction := fun _ recipient _ _ _ =>
      if recipient = bad then Except.error { message := "boom" } else Except.ok ()
  }

/-! ### Basic lemmas about `register_payment` -/

theorem getPending_updateAdd_self (st : Ledger) (a : String) (v : Int) :
    getPending (updateAdd st a v) a = (getPending st a).map (· + v) := by
  induction st with
  | nil => simp [getPending, updateAdd]
  | cons p rest ih =>
    obtain ⟨k, w⟩ := p
    by_cases hk : k = a
    · simp [getPending, updateAdd, hk]
    · simp [getPending, updateAdd, hk, ih]

theorem getPending_updateAdd_other (st : Ledger) (a b : String) (v : Int)
    (hab : a ≠ b) :
    getPending (updateAdd st b v) a = getPending st a := by
  induction st with
  | nil => simp [updateAdd]
  | cons p rest ih =>
    obtain ⟨k, w⟩ := p
    by_cases hk : k = b
    · subst hk
      simp [getPending, updateAdd, Ne.symm hab]
    · by_cases hka : k = a
      · simp [getPending, updateAdd, hk, hka, hab]
      · simp [getPending, updateAdd, hk, hka, ih]

theorem getPending_register_self (st : Ledger) (a : String) (v : Int) :
    getPending (register_payment st a v) a = some ((getPending st a).getD 0 + v) := by
  unfold register_payment
  rcases hl : getPending st a with _ | w
  · simp [getPending, hl]
  · simp [getPending_updateAdd_self, hl]

theorem getPending_register_other (st : Ledger) (a b : String) (v : Int)
    (hab : a ≠ b) :
    getPending (register_payment st b v) a = getPending st a := by
  unfold register_payment
  rcases hl : getPending st b with _ | w
  · simp [getPending, Ne.symm hab]
  · simp [getPending_updateAdd_other st a b v hab]

theorem register_payment_fresh (st : Ledger) (a : String) (v : Int)
    (h : getPending st a = none) :
    register_payment st a v = (a, v) :: st := by
  unfold register_payment
  rw [h]

theorem register_payment_head (st : Ledger) (a : String) (acc v : Int) :
    register_payment ((a, acc) :: st) a v = (a, acc + v) :: st := by
  unfold register_payment
  simp [getPending, updateAdd]

/-! ### Lemmas about the drain loop -/

theorem drainLoop_decomp (send : String → Int → Except TransferError Unit)
    (d : Ledger) :
    (drainLoop send d).1 ++ (drainLoop send d).2.1 = d := by
  induction d with
  | nil => simp [drainLoop]
  | cons p rest ih =>
    obtain ⟨r, a⟩ := p
    cases hs : send r a with
    | ok u =>
      rcases hd : drainLoop send rest with ⟨att, rem, err⟩
      rw [hd] at ih
      simp only [drainLoop, hs, hd]
      simpa using ih
    | error e => simp [drainLoop, hs]

theorem drainLoop_all_ok (send : String → Int → Except TransferError Unit)
    (d : Ledger) (h : ∀ p ∈ d, send p.1 p.2 = Except.ok ()) :
    drainLoop send d = (d, [], none) := by
  induction d with
  | nil => rfl
  | cons p rest ih =>
    obtain ⟨r, a⟩ := p
    have hs : send r a = Except.ok () := h (r, a) (by simp)
    have hrest : ∀ p ∈ rest, send p.1 p.2 = Except.ok () :=
      fun p hp => h p (by simp [hp])
    simp [drainLoop, hs, ih hrest]

theorem drainLoop_first_fail (send : String → Int → Except TransferError Unit)
    (pre post : Ledger) (q : String × Int) (e : TransferError)
    (hpre : ∀ p ∈ pre, send p.1 p.2 = Except.ok ())
    (hq : send q.1 q.2 = Except.error e) :
    drainLoop send (pre ++ q :: post) = (pre ++ [q], post, some e) := by
  induction pre with
  | nil =>
    obtain ⟨r, a⟩ := q
    simp only [List.nil_append]
    simp only [] at hq
    simp [drainLoop, hq]
  | cons p rest ih =>
    obtain ⟨r, a⟩ := p
    have hs : send r a = Except.ok () := hpre (r, a) (by simp)
    have hrest : ∀ p ∈ rest, send p.1 p.2 = Except.ok () :=
      fun p hp => hpre p (by simp [hp])
    simp [drainLoop, hs, ih hrest]

theorem drainLoop_err_none (send : String → Int → Except TransferError Unit)
    (d : Ledger) (h : (drainLoop send d).2.2 = none) :
    (drainLoop send d).1 = d ∧ (drainLoop send d).2.1 = [] := by
  induction d with
  | nil => simp [drainLoop]
  | cons p rest ih =>
    obtain ⟨r, a⟩ := p
    cases hs : send r a with
    | ok u =>
      rcases hd : drainLoop send rest with ⟨att, rem, err⟩
      rw [hd] at ih
      simp only [drainLoop, hs, hd] at h ⊢
      simp only [] at h ih ⊢
      obtain ⟨h1, h2⟩ := ih h
      simp [h1, h2]
    | error e =>
      simp [drainLoop, hs] at h

theorem drainLoop_head (send : String → Int → Except TransferError Unit)
    (p : String × Int) (rest : Ledger) :
    (drainLoop send (p :: rest)).1.head? = some p := by
  obtain ⟨r, a⟩ := p
  cases hs : send r a with
  | ok u =>
    rcases hd : drainLoop send rest with ⟨att, rem, err⟩
    simp [drainLoop, hs, hd]
  | error e => simp [drainLoop, hs]

theorem process_payments_auth (client : Client) (sender : String)
    (use_stake_txns : Bool) (st : Ledger)
    (h : client.is_account_unlocked sender = true) :
    process_payments client sender use_stake_txns st =
      { attempts := (drainLoop (sendOf client sender use_stake_txns) st).1,
        remaining := (drainLoop (sendOf client sender use_stake_txns) st).2.1,
        error := ((drainLoop (sendOf client sender use_stake_txns) st).2.2).map
          PayError.transfer } := by
  simp [process_payments, h]

/-! ### Lemmas about sequences of registrations -/

theorem getPending_foldRegister (R : String) (calls : List (String × Int)) :
    ∀ st : Ledger, getPending (foldRegister st calls) R =
      if calls.any (fun c => c.1 == R) then
        some ((getPending st R).getD 0 + sumFor R calls)
      else getPending st R := by
  induction calls with
  | nil => intro st; simp [foldRegister, sumFor]
  | cons c cs ih =>
    intro st
    obtain ⟨b, v⟩ := c
    by_cases hb : b = R
    · subst hb
      have hstep : getPending (register_payment st b v) b =
          some ((getPending st b).getD 0 + v) := getPending_register_self st b v
      have : foldRegister st ((b, v) :: cs) =
          foldRegister (register_payment st b v) cs := rfl
      rw [this, ih]
      by_cases hcs : cs.any (fun c => c.1 == b) = true
      · simp [hcs, sumFor, hstep, add_assoc]
      · simp only [Bool.not_eq_true] at hcs
        have hnil : cs.filter (fun c => c.1 == b) = [] := by
          rw [List.filter_eq_nil_iff]
          intro a ha hab
          have htr : cs.any (fun c => c.1 == b) = true :=
            List.any_eq_true.mpr ⟨a, ha, hab⟩
          simp [htr] at hcs
        simp [hcs, sumFor, hstep, hnil]
    · have hstep : getPending (register_payment st b v) R =
          getPending st R := getPending_register_other st R b v (Ne.symm hb)
      have hfold : foldRegister st ((b, v) :: cs) =
          foldRegister (register_payment st b v) cs := rfl
      have hbr : (b == R) = false := by simp [hb]
      have hsum : sumFor R ((b, v) :: cs) = sumFor R cs := by
        simp [sumFor, hbr]
      have hany : (((b, v) :: cs).any fun c => c.1 == R) =
          (cs.any fun c => c.1 == R) := by
        simp [hbr]
      rw [hfold, ih, hstep, hany, hsum]

theorem foldRegister_same_recipient (st : Ledger) (R : String) :
    ∀ (xs : List Int) (acc : Int),
      foldRegister ((R, acc) :: st) (xs.map fun x => (R, x)) =
        (R, acc + xs.sum) :: st := by
  intro xs
  induction xs with
  | nil => intro acc; simp [foldRegister]
  | cons x xs ih =>
    intro acc
    have : foldRegister ((R, acc) :: st) (((x :: xs).map fun x => (R, x))) =
        foldRegister (register_payment ((R, acc) :: st) R x)
          (xs.map fun x => (R, x)) := rfl
    rw [this, register_payment_head, ih]
    simp [add_assoc]

theorem countP_key (l : Ledger) (r : String) :
    l.countP (fun p => p.1 == r) = (l.map Prod.fst).count r := by
  show l.countP (fun p => p.1 == r) = (l.map Prod.fst).countP (fun k => k == r)
  rw [List.countP_map]
  rfl

/-! ### Claim theorems -/

/-- C1: for every sequence of RegisterPayment calls targeting recipient
`R` with amounts a₁,…,aₙ, in any order and interleaved with calls for
other recipients, starting from a ledger with no entry for `R` and with no
intervening drain, the pending amount stored for `R` afterwards equals
Σaᵢ; and N consecutive calls for `R` have the same cumulative effect on
the whole ledger as one call with the total amount. -/
theorem claim_register_sum_invariant (st : Ledger) (R : String)
    (calls : List (String × Int)) (amounts : List Int)
    (h0 : getPending st R = none)
    (hmem : calls.any (fun c => c.1 == R) = true)
    (hne : amounts ≠ []) :
    getPending (foldRegister st calls) R = some (sumFor R calls) ∧
    foldRegister st (amounts.map fun x => (R, x)) =
      register_payment st R amounts.sum := by
  constructor
  · rw [getPending_foldRegister R calls st]
    simp [hmem, h0]
  · cases amounts with
    | nil => cases hne rfl
    | cons x xs =>
      have h1 : register_payment st R x = (R, x) :: st :=
        register_payment_fresh st R x h0
      calc foldRegister st ((x :: xs).map fun y => (R, y))
          = foldRegister (register_payment st R x) (xs.map fun y => (R, y)) := rfl
        _ = foldRegister ((R, x) :: st) (xs.map fun y => (R, y)) := by rw [h1]
        _ = (R, x + xs.sum) :: st := foldRegister_same_recipient st R xs x
        _ = register_payment st R (x :: xs).sum := by
            rw [register_payment_fresh st R _ h0]
            simp

theorem claim_register_sum_invariant_witness :
    (getPending (foldRegister [] [("A", 3), ("B", 4), ("A", 5)]) "A" =
        some (sumFor "A" [("A", 3), ("B", 4), ("A", 5)]) ∧
      foldRegister [] (([3, 5] : List Int).map fun x => ("A", x)) =
        register_payment [] "A" ([3, 5] : List Int).sum) ∧
    sumFor "A" [("A", 3), ("B", 4), ("A", 5)] = 8 :=
  ⟨claim_register_sum_invariant [] "A" [("A", 3), ("B", 4), ("A", 5)] [3, 5]
      rfl (by decide) (by decide), by decide⟩

/-- C8: RegisterPayment is total and cannot fail: for every recipient
identity and every amount, the call completes normally with the entry
either created with the given amount or increased by it (stated for all
identities and all amounts, which covers every non-empty identity and
every representable amount). -/
theorem claim_register_payment_total (st : Ledger) (address : String)
    (amount : Int) :
    getPending (register_payment st address amount) address =
      some ((getPending st address).getD 0 + amount) :=
  getPending_register_self st address amount

/-- C3: if the account-unlock check for the sender reports false,
process_payments fails with the unauthorized error, performs zero transfer
calls, and leaves the pending mapping exactly as it was. -/
theorem claim_unauthorized_short_circuit (client : Client) (sender : String)
    (use_stake_txns : Bool) (st : Ledger)
    (h : client.is_account_unlocked sender = false) :
    process_payments client sender use_stake_txns st =
      { attempts := [], remaining := st,
        error := some (PayError.unauthorized
          ("Cannot send transaction because " ++ sender ++ " is locked")) } := by
  simp [process_payments, h]

theorem claim_unauthorized_short_circuit_witness :
    process_payments lockedClient "S" false [("A", 10)] =
      { attempts := [], remaining := [("A", 10)],
        error := some (PayError.unauthorized
          ("Cannot send transaction because " ++ "S" ++ " is locked")) } :=
  claim_unauthorized_short_circuit lockedClient "S" false [("A", 10)] rfl

/-- C4: with an authorized sender, when process_payments returns normally
(no propagated error), the pending mapping is empty and every entry
present at drain-start was attempted. -/
theorem claim_drain_exhaustion (client : Client) (sender : String)
    (use_stake_txns : Bool) (st : Ledger)
    (hauth : client.is_account_unlocked sender = true)
    (hok : (process_payments client sender use_stake_txns st).error = none) :
    (process_payments client sender use_stake_txns st).remaining = [] ∧
    (process_payments client sender use_stake_txns st).attempts = st := by
  have hP := process_payments_auth client sender use_stake_txns st hauth
  rw [hP] at hok
  have hnone : (drainLoop (sendOf client sender use_stake_txns) st).2.2 = none := by
    rcases hx : (drainLoop (sendOf client sender use_stake_txns) st).2.2 with _ | e
    · rfl
    · rw [hx] at hok
      simp at hok
  obtain ⟨h1, h2⟩ := drainLoop_err_none (sendOf client sender use_stake_txns) st hnone
  rw [hP]
  simp [h1, h2]

theorem claim_drain_exhaustion_witness :
    (process_payments okClient "S" false [("A", 1), ("B", 2)]).remaining = [] ∧
    (process_payments okClient "S" false [("A", 1), ("B", 2)]).attempts =
      [("A", 1), ("B", 2)] :=
  claim_drain_exhaustion okClient "S" false [("A", 1), ("B", 2)] rfl rfl

/-- C2 counterexample: drain-start mapping holds entries for B (popped
first) and A; the transfer to B fails.  process_payments attempts only the
one transfer to B — it does not continue to A — and its outcome is the
propagated exception, not a completed batch carrying a failure list. -/
theorem claim_no_halt_counterexample :
    (process_payments (failOnClient "B") "S" false [("B", 5), ("A", 10)]).attempts =
        [("B", 5)] ∧
    (process_payments (failOnClient "B") "S" false [("B", 5), ("A", 10)]).remaining =
        [("A", 10)] ∧
    (process_payments (failOnClient "B") "S" false [("B", 5), ("A", 10)]).error =
        some (PayError.transfer { message := "boom" }) :=
  ⟨rfl, rfl, rfl⟩

/-- C2 (amended): a single transfer failure is never swallowed — the error
is propagated to the caller of process_payments — but the drain DOES halt
at the first failure: when entries beyond the failing one remain, strictly
fewer transfers are attempted than there are pending entries, and no
attempt count or collected failure list is returned (the sole outcome is
the propagated error). -/
theorem claim_transfer_error_propagates (client : Client) (sender : String)
    (use_stake_txns : Bool) (pre post : Ledger) (q : String × Int)
    (e : TransferError)
    (hauth : client.is_account_unlocked sender = true)
    (hpre : ∀ p ∈ pre, sendOf client sender use_stake_txns p.1 p.2 = Except.ok ())
    (hq : sendOf client sender use_stake_txns q.1 q.2 = Except.error e)
    (hpost : post ≠ []) :
    (process_payments client sender use_stake_txns (pre ++ q :: post)).error =
        some (PayError.transfer e) ∧
    (process_payments client sender use_stake_txns (pre ++ q :: post)).attempts.length <
        (pre ++ q :: post).length := by
  rw [process_payments_auth client sender use_stake_txns (pre ++ q :: post) hauth,
    drainLoop_first_fail (sendOf client sender use_stake_txns) pre post q e hpre hq]
  refine ⟨rfl, ?_⟩
  cases post with
  | nil => cases hpost rfl
  | cons p ps =>
    simp only [List.length_append, List.length_cons, List.length_nil]
    omega

theorem claim_transfer_error_propagates_witness :
    (process_payments (failOnClient "B") "S" false
        [("A", 1), ("B", 2), ("C", 3)]).error =
      some (PayError.transfer { message := "boom" }) ∧
    (process_payments (failOnClient "B") "S" false
        [("A", 1), ("B", 2), ("C", 3)]).attempts.length <
      ([("A", 1), ("B", 2), ("C", 3)] : Ledger).length :=
  claim_transfer_error_propagates (failOnClient "B") "S" false
    [("A", 1)] [("C", 3)] ("B", 2) { message := "boom" } rfl
    (by intro p hp; rw [List.mem_singleton] at hp; subst hp; rfl) rfl
    (by intro h; cases h)

/-- C10: if the transfer for the k-th popped entry raises an error,
process_payments propagates that error to its caller and terminates the
drain there: the attempted entries are exactly the k popped ones, and
every entry not yet popped remains in the pending mapping unchanged,
available to the next drain cycle. -/
theorem claim_error_terminates_drain (client : Client) (sender : String)
    (use_stake_txns : Bool) (pre post : Ledger) (q : String × Int)
    (e : TransferError)
    (hauth : client.is_account_unlocked sender = true)
    (hpre : ∀ p ∈ pre, sendOf client sender use_stake_txns p.1 p.2 = Except.ok ())
    (hq : sendOf client sender use_stake_txns q.1 q.2 = Except.error e) :
    (process_payments client sender use_stake_txns (pre ++ q :: post)).error =
        some (PayError.transfer e) ∧
    (process_payments client sender use_stake_txns (pre ++ q :: post)).attempts =
        pre ++ [q] ∧
    (process_payments client sender use_stake_txns (pre ++ q :: post)).remaining =
        post := by
  rw [process_payments_auth client sender use_stake_txns (pre ++ q :: post) hauth,
    drainLoop_first_fail (sendOf client sender use_stake_txns) pre post q e hpre hq]
  exact ⟨rfl, rfl, rfl⟩

theorem claim_error_terminates_drain_witness :
    (process_payments (failOnClient "D") "S" false
        [("C", 7), ("D", 8), ("E", 9)]).error =
      some (PayError.transfer { message := "boom" }) ∧
    (process_payments (failOnClient "D") "S" false
        [("C", 7), ("D", 8), ("E", 9)]).attempts = [("C", 7), ("D", 8)] ∧
    (process_payments (failOnClient "D") "S" false
        [("C", 7), ("D", 8), ("E", 9)]).remaining = [("E", 9)] :=
  claim_error_terminates_drain (failOnClient "D") "S" false
    [("C", 7)] [("E", 9)] ("D", 8) { message := "boom" } rfl
    (by intro p hp; rw [List.mem_singleton] at hp; subst hp; rfl) rfl

/-- C5 counterexample: recipient D is present in the mapping at
drain-start, but because the earlier transfer to C fails, D appears in
zero transfer attempts of the call — it is skipped, not attempted exactly
once. -/
theorem claim_exactly_once_counterexample :
    (("D", 2) ∈ ([("C", 1), ("D", 2)] : Ledger)) ∧
    (process_payments (failOnClient "C") "S" false
        [("C", 1), ("D", 2)]).attempts.countP (fun p => p.1 == "D") = 0 :=
  ⟨by decide, rfl⟩

/-- C5 (amended): within a single process_payments call on a mapping with
pairwise-distinct recipients, no recipient appears in more than one
transfer attempt; when the call returns without error, every recipient
present at drain-start appears in exactly one transfer attempt.  If a
transfer fails, entries popped after the failing one do not exist: the
not-yet-popped recipients receive no attempt in that call.  No order of
attempts is guaranteed beyond the pop order of the mapping. -/
theorem claim_at_most_once_attempt (client : Client) (sender : String)
    (use_stake_txns : Bool) (st : Ledger)
    (hauth : client.is_account_unlocked sender = true)
    (hnd : (st.map Prod.fst).Nodup) :
    (∀ r : String,
      (process_payments client sender use_stake_txns st).attempts.countP
        (fun p => p.1 == r) ≤ 1) ∧
    ((process_payments client sender use_stake_txns st).error = none →
      ∀ p ∈ st,
        (process_payments client sender use_stake_txns st).attempts.countP
          (fun q => q.1 == p.1) = 1) := by
  have hP := process_payments_auth client sender use_stake_txns st hauth
  have hdec := drainLoop_decomp (sendOf client sender use_stake_txns) st
  have hnd2 : (((drainLoop (sendOf client sender use_stake_txns) st).1.map
      Prod.fst)).Nodup := by
    rw [← hdec, List.map_append] at hnd
    exact hnd.of_append_left
  constructor
  · intro r
    rw [hP]
    simp only []
    rw [countP_key]
    exact List.nodup_iff_count_le_one.mp hnd2 r
  · intro herr p hp
    rw [hP] at herr
    have hnone : (drainLoop (sendOf client sender use_stake_txns) st).2.2 = none := by
      rcases hx : (drainLoop (sendOf client sender use_stake_txns) st).2.2 with _ | e
      · rfl
      · rw [hx] at herr
        simp at herr
    obtain ⟨h1, _⟩ :=
      drainLoop_err_none (sendOf client sender use_stake_txns) st hnone
    rw [hP]
    simp only []
    rw [h1, countP_key]
    exact List.count_eq_one_of_mem hnd (List.mem_map_of_mem Prod.fst hp)

theorem claim_at_most_once_attempt_witness :
    (process_payments okClient "S" false
        [("A", 1), ("B", 2)]).attempts.countP (fun p => p.1 == "A") ≤ 1 :=
  (claim_at_most_once_attempt okClient "S" false [("A", 1), ("B", 2)]
    rfl (by decide)).1 "A"

/-- C6: every popped entry is out of the mapping from the moment it is
popped, whether its send succeeds or fails: the attempted entries followed
by the remaining ones reconstitute the drain-start mapping (so nothing was
retried or re-inserted), and for pairwise-distinct recipients no attempted
recipient — including one whose transfer failed — still has an entry in
the remaining mapping. -/
theorem claim_credit_consumed_on_pop (client : Client) (sender : String)
    (use_stake_txns : Bool) (st : Ledger)
    (hauth : client.is_account_unlocked sender = true)
    (hnd : (st.map Prod.fst).Nodup) :
    (process_payments client sender use_stake_txns st).attempts ++
        (process_payments client sender use_stake_txns st).remaining = st ∧
    ∀ p ∈ (process_payments client sender use_stake_txns st).attempts,
      ∀ q ∈ (process_payments client sender use_stake_txns st).remaining,
        p.1 ≠ q.1 := by
  have hP := process_payments_auth client sender use_stake_txns st hauth
  have hdec := drainLoop_decomp (sendOf client sender use_stake_txns) st
  constructor
  · rw [hP]
    simp only []
    exact hdec
  · intro p hp q hq
    rw [hP] at hp hq
    simp only [] at hp hq
    rw [← hdec, List.map_append] at hnd
    have hdisj := (List.nodup_append.mp hnd).2.2
    intro heq
    exact hdisj (List.mem_map_of_mem Prod.fst hp)
      (heq ▸ List.mem_map_of_mem Prod.fst hq)

theorem claim_credit_consumed_on_pop_witness :
    (process_payments (failOnClient "B") "S" false
        [("B", 2), ("C", 3)]).attempts ++
      (process_payments (failOnClient "B") "S" false
        [("B", 2), ("C", 3)]).remaining = [("B", 2), ("C", 3)] :=
  (claim_credit_consumed_on_pop (failOnClient "B") "S" false
    [("B", 2), ("C", 3)] rfl (by decide)).1

/-- C9: registering amount 0 for a recipient with no pending entry creates
a real entry with value 0 (the ledger itself does not filter zero
amounts), and a subsequent process_payments pops that entry (it is the
most recently inserted, hence popped first) and issues a transfer attempt
of amount 0 for that recipient. -/
theorem claim_zero_amount_entry (client : Client) (sender : String)
    (use_stake_txns : Bool) (st : Ledger) (r : String)
    (h0 : getPending st r = none)
    (hauth : client.is_account_unlocked sender = true) :
    getPending (register_payment st r 0) r = some 0 ∧
    (process_payments client sender use_stake_txns
        (register_payment st r 0)).attempts.head? = some (r, 0) := by
  have hfresh : register_payment st r 0 = (r, 0) :: st :=
    register_payment_fresh st r 0 h0
  constructor
  · rw [hfresh]
    simp [getPending]
  · rw [process_payments_auth client sender use_stake_txns _ hauth, hfresh]
    simp only []
    exact drainLoop_head (sendOf client sender use_stake_txns) (r, 0) st

theorem claim_zero_amount_entry_witness :
    getPending (register_payment [("B", 7)] "A" 0) "A" = some 0 ∧
    (process_payments okClient "S" false
        (register_payment [("B", 7)] "A" 0)).attempts.head? = some ("A", 0) :=
  claim_zero_amount_entry okClient "S" false [("B", 7)] "A" rfl rfl
